import Mathlib

/-!
Shallow embedding of `main.py` of the GIF-BG-Remover repository.

The program `process_gif` validates an input path, creates the output
directory, creates one rembg inference session, decodes the GIF, and for
each frame: converts it to RGBA, saves a temp PNG, runs background removal
on the bytes of the temp file, writes the result, and (unless `keep_temp_files`)
deletes the temp file inside a `finally` block that suppresses
`FileNotFoundError`.

External collaborators (PIL decoding/conversion/encoding, the rembg model,
and I/O fault behaviour) are opaque: they are fields of an `Env` record.
The filesystem is an association list of path/content pairs plus a list of
directories. Observable calls (session creation, per-frame removal calls,
error logging of the `except` handler) are recorded in an event trace.
-/

/-- Raw byte strings (file contents, encoded images). -/
abbrev Bytes := List Nat

/-- A pixel buffer of one still frame (opaque to this program). -/
abbrev FrameT := List Nat

/-- A decoded animated image: ordered frames plus optional duration metadata
(the `duration` metadata field is read with a 100 ms default). -/
structure GIFImage where
  frames : List FrameT
  duration : Option Nat
deriving DecidableEq, Repr

/-- One decimal digit rendered as a character, as Python `format` does. -/
def digitChar (d : Nat) : Char := Char.ofNat (48 + d)

/-- Decimal digits of `n`, least significant first, with explicit fuel. -/
def decDigitsAux : Nat → Nat → List Nat
  | 0, _ => []
  | f+1, n => if n = 0 then [] else n % 10 :: decDigitsAux f (n / 10)

/-- Decimal representation of a natural number (Python `str`/`repr`). -/
def decRepr (n : Nat) : String :=
  if n = 0 then "0" else ⟨((decDigitsAux n n).map digitChar).reverse⟩

/-- Python format spec `03d`: zero-pad to width 3; wider numbers are not
truncated, the field simply widens. -/
def pad3 (n : Nat) : String :=
  ⟨List.replicate (3 - (decRepr n).length) '0' ++ (decRepr n).data⟩

/-- One step of parsing a decimal string, most significant digit first. -/
def parseStep (a : Nat) (c : Char) : Nat := 10 * a + (c.toNat - 48)

/-- Parse a decimal string back to a number (used only in proofs about
`pad3`; it is the left inverse that makes `pad3` injective). -/
def parseVal (s : String) : Nat := s.data.foldl parseStep 0

/-- Value of a least-significant-first decimal digit list. -/
def ofDigitsLE : List Nat → Nat
  | [] => 0
  | d :: l => d + 10 * ofDigitsLE l

/-- Characters of the last path component (`pathlib.PurePath.name`, for the
simple paths this program handles). -/
def pathNameChars (p : String) : List Char :=
  (p.data.reverse.takeWhile (fun c => ! (c == '/'))).reverse

/-- Embedding of `pathlib.PurePath.suffix`: the part of the name from its
last dot, provided that dot is neither the first nor the last character. -/
def suffix (p : String) : String :=
  let name := pathNameChars p
  let j := name.reverse.findIdx (fun c => c == '.')
  if j < name.length then
    let i := name.length - 1 - j
    if 0 < i ∧ i < name.length - 1 then ⟨name.drop i⟩ else ""
  else ""

/-- Embedding of `str.lower` (ASCII case folding suffices here). -/
def strToLower (s : String) : String := ⟨s.data.map Char.toLower⟩

/-- Whether path `p` lies directly under directory `dir` (its text starts
with `dir` followed by a slash). -/
def underDir (dir p : String) : Bool :=
  p.data.take (dir.data.length + 1) == dir.data ++ ['/']

/-- Errors the modelled program can raise (Python exception classes). -/
inductive Err where
  | fileNotFoundError (msg : String)
  | valueError (msg : String)
  | osError (msg : String)
  | imageOpenError
  | inferenceError (msg : String)
deriving DecidableEq, Repr

/-- A modelled filesystem: files as a path/content association list (unique
keys by construction) and a list of existing directories. -/
structure FS where
  files : List (String × Bytes)
  dirs : List String
deriving DecidableEq, Repr

/-- Content of the file at `p`, if present. -/
def FS.lookupFile (fs : FS) (p : String) : Option Bytes := fs.files.lookup p

/-- Whether a regular file exists at `p`. -/
def FS.fileExists (fs : FS) (p : String) : Bool := (fs.lookupFile p).isSome

/-- Embedding of `Path.exists`: a file or a directory is at `p`. -/
def FS.pathExists (fs : FS) (p : String) : Bool :=
  fs.fileExists p || fs.dirs.contains p

/-- Write (create or overwrite) the file at `p`. -/
def FS.writeFile (fs : FS) (p : String) (b : Bytes) : FS :=
  if fs.fileExists p then
    { fs with files := fs.files.map (fun e => if e.1 = p then (p, b) else e) }
  else
    { fs with files := fs.files ++ [(p, b)] }

/-- Remove the file at `p` (the success case of `Path.unlink`). -/
def FS.eraseFile (fs : FS) (p : String) : FS :=
  { fs with files := fs.files.filter (fun e => ! (e.1 == p)) }

/-- Embedding of `Path.mkdir(parents=True, exist_ok=True)`: record the
directory, never fail, reuse an existing directory untouched. -/
def FS.mkdirP (fs : FS) (p : String) : FS :=
  if fs.dirs.contains p then fs else { fs with dirs := fs.dirs ++ [p] }

/-- A rembg inference session: an allocation id plus the model name it was
scoped to (`None` means the library default model). -/
structure Session where
  sid : Nat
  modelName : Option String
deriving DecidableEq, Repr

/-- Observable events of one run. -/
inductive Event where
  | evNewSession (sid : Nat) (modelName : Option String)
  | evRemove (frameIdx : Nat) (sid : Nat)
  | evLogError
deriving DecidableEq, Repr

/-- Mutable state threaded through a run: filesystem plus event trace. -/
structure St where
  fs : FS
  events : List Event
deriving DecidableEq, Repr

/-- The opaque collaborators and fault behaviour of the outside world. -/
structure Env where
  decode : Bytes → Option GIFImage
  convertRGBA : FrameT → FrameT
  pngEncode : FrameT → Bytes
  removeBg : Bytes → Session → Except Err Bytes
  saveFails : String → Bytes → Option Err
  writeFails : String → Bytes → Option Err
  unlinkOtherFail : String → Bool

/-- The model scope of the created session, from `new_session(model_name) if
model_name else new_session()`: Python truthiness means an absent or empty
model name falls back to the default session. -/
def sessionModel : Option String → Option String
  | none => none
  | some s => if s = "" then none else some s

/-- Temp artifact path of frame `i`: `frame_NNN.png` in the output dir. -/
def tempFramePath (out : String) (i : Nat) : String :=
  out ++ "/frame_" ++ pad3 i ++ ".png"

/-- Final artifact path of frame `i`: `frame_NNN_bg_removed.png`. -/
def outFramePath (out : String) (i : Nat) : String :=
  out ++ "/frame_" ++ pad3 i ++ "_bg_removed.png"

/-- Steps 4c-4e of one loop iteration of `process_gif`: save the converted
frame to the temp path, read it back and call `remove` with the shared
session, write the returned bytes to the output path. Returns the state
after whatever executed, plus the in-flight exception if one was raised. -/
def frameBody (env : Env) (session : Session) (out : String) (i : Nat)
    (frame : FrameT) (st : St) : St × Option Err :=
  let png := env.pngEncode (env.convertRGBA frame)
  match env.saveFails (tempFramePath out i) png with
  | some e => (st, some e)
  | none =>
    let st1 : St := { st with fs := st.fs.writeFile (tempFramePath out i) png }
    let data := (st1.fs.lookupFile (tempFramePath out i)).getD []
    let st2 : St := { st1 with events := st1.events ++ [Event.evRemove i session.sid] }
    match env.removeBg data session with
    | Except.error e => (st2, some e)
    | Except.ok outData =>
      match env.writeFails (outFramePath out i) outData with
      | some e => (st2, some e)
      | none => ({ st2 with fs := st2.fs.writeFile (outFramePath out i) outData }, none)

/-- The `finally` clause of one loop iteration: unless `keep_temp_files`,
unlink the temp file, suppressing only `FileNotFoundError`; any other
deletion failure is itself an exception. -/
def frameCleanup (env : Env) (keep_temp_files : Bool) (tempPath : String)
    (st : St) : St × Option Err :=
  if keep_temp_files then (st, none)
  else if st.fs.fileExists tempPath then
    if env.unlinkOtherFail tempPath then (st, some (Err.osError "unlink failed"))
    else ({ st with fs := st.fs.eraseFile tempPath }, none)
  else (st, none)

/-- One full loop iteration: body wrapped in `try/finally`. Per Python
semantics an exception raised by the `finally` clause replaces the
in-flight one; otherwise the in-flight exception continues to propagate. -/
def processFrame (env : Env) (keep_temp_files : Bool) (session : Session)
    (out : String) (i : Nat) (frame : FrameT) (st : St) : St × Option Err :=
  let r1 := frameBody env session out i frame st
  let r2 := frameCleanup env keep_temp_files (tempFramePath out i) r1.1
  (r2.1, match r2.2 with | some e => some e | none => r1.2)

/-- The frame loop: frames in container order, counter starting at `i`. The
first raised exception aborts the loop. -/
def processFrames (env : Env) (keep_temp_files : Bool) (session : Session)
    (out : String) : List FrameT → Nat → St → St × Option Err
  | [], _, st => (st, none)
  | f :: rest, i, st =>
    match processFrame env keep_temp_files session out i f st with
    | (st1, some e) => (st1, some e)
    | (st1, none) => processFrames env keep_temp_files session out rest (i+1) st1

/-- Final state and outcome of one `process_gif` call. -/
structure RunResult where
  st : St
  result : Except Err String

/-- The `try` block of `process_gif`: `Image.open` (the decoded container,
or `none` when the bytes do not decode), the unused `duration` read, the
frame loop, and the `except` handler that logs the error and re-raises it. -/
def openAndLoop (env : Env) (output_folder : String) (keep_temp_files : Bool)
    (session : Session) (gifOpt : Option GIFImage) (st1 : St) : RunResult :=
  match gifOpt with
  | none =>
    ⟨{ st1 with events := st1.events ++ [Event.evLogError] }, Except.error Err.imageOpenError⟩
  | some gif =>
    let _duration := gif.duration.getD 100
    match processFrames env keep_temp_files session output_folder gif.frames 1 st1 with
    | (st2, some e) => ⟨{ st2 with events := st2.events ++ [Event.evLogError] }, Except.error e⟩
    | (st2, none) => ⟨st2, Except.ok output_folder⟩

/-- Embedding of `process_gif`: validation, output-directory creation,
session creation, then the decode + frame loop inside the `try` whose
`except` handler logs the error and re-raises it. -/
def process_gif (env : Env) (input_gif_path : String) (output_folder : String)
    (keep_temp_files : Bool) (model_name : Option String) (fs0 : FS) : RunResult :=
  let st0 : St := ⟨fs0, []⟩
  if fs0.pathExists input_gif_path = false then
    ⟨st0, Except.error (Err.fileNotFoundError ("Input file not found: " ++ input_gif_path))⟩
  else if ¬ (strToLower (suffix input_gif_path) = ".gif") then
    ⟨st0, Except.error (Err.valueError ("Input file must be a GIF, got: " ++ suffix input_gif_path))⟩
  else
    let fs1 := fs0.mkdirP output_folder
    let session : Session := ⟨0, sessionModel model_name⟩
    let st1 : St := ⟨fs1, [Event.evNewSession 0 (sessionModel model_name)]⟩
    openAndLoop env output_folder keep_temp_files session
      ((fs1.lookupFile input_gif_path).bind env.decode) st1

/-- Parsed command-line arguments of the `__main__` block. -/
structure CLIArgs where
  input_gif : String
  output_dir : String
  keep_temp : Bool
  model : Option String
  debug : Bool

/-- Embedding of the `__main__` block: call `process_gif`; on any exception
log the failure and exit with code 1, otherwise finish with exit code 0. -/
def mainRun (env : Env) (args : CLIArgs) (fs0 : FS) : St × Nat :=
  let r := process_gif env args.input_gif args.output_dir args.keep_temp args.model fs0
  match r.result with
  | Except.ok _ => (r.st, 0)
  | Except.error _ => ({ r.st with events := r.st.events ++ [Event.evLogError] }, 1)

/-- Number of loop iterations the frame loop actually enters before
stopping: all frames on success, and up to and including the failing frame
when an iteration raises. -/
def framesIterated (env : Env) (keep_temp_files : Bool) (session : Session)
    (out : String) : List FrameT → Nat → St → Nat
  | [], _, _ => 0
  | f :: rest, i, st =>
    match processFrame env keep_temp_files session out i f st with
    | (_, some _) => 1
    | (st1, none) => 1 + framesIterated env keep_temp_files session out rest (i+1) st1

/-- Number of frame indices the `try` block iterates (zero when the input
does not decode). -/
def iteratedCount (env : Env) (out : String) (keep_temp_files : Bool) (session : Session)
    (gifOpt : Option GIFImage) (st1 : St) : Nat :=
  match gifOpt with
  | none => 0
  | some gif => framesIterated env keep_temp_files session out gif.frames 1 st1

/-- Number of frame indices actually iterated by a `process_gif` call: the
loop counter values for which the per-frame body was entered. -/
def process_gif_iterated (env : Env) (input_gif_path : String) (output_folder : String)
    (keep_temp_files : Bool) (model_name : Option String) (fs0 : FS) : Nat :=
  if fs0.pathExists input_gif_path = false then 0
  else if ¬ (strToLower (suffix input_gif_path) = ".gif") then 0
  else
    let fs1 := fs0.mkdirP output_folder
    let session : Session := ⟨0, sessionModel model_name⟩
    let st1 : St := ⟨fs1, [Event.evNewSession 0 (sessionModel model_name)]⟩
    iteratedCount env output_folder keep_temp_files session
      ((fs1.lookupFile input_gif_path).bind env.decode) st1

/-- Predicate used to count removal calls for one frame index. -/
def isRemoveOf (m : Nat) : Event → Bool
  | Event.evRemove k _ => k == m
  | _ => false

/-- The artifact entries a fault-free run appends for the frames starting
at index `i` (used to state the layout theorems; `f` is the value of the
background-removal function on success). -/
def artifactEntries (env : Env) (f : Bytes → Session → Bytes) (session : Session)
    (keep : Bool) (out : String) : Nat → List FrameT → List (String × Bytes)
  | _, [] => []
  | i, fr :: rest =>
    (if keep then [(tempFramePath out i, env.pngEncode (env.convertRGBA fr))] else [])
      ++ [(outFramePath out i, f (env.pngEncode (env.convertRGBA fr)) session)]
      ++ artifactEntries env f session keep out (i+1) rest

/-- Predicate selecting session-creation events. -/
def isNewSessionEv : Event → Bool
  | Event.evNewSession _ _ => true
  | _ => false

/-! ### Concrete fixtures for witnesses -/

def gifOk : GIFImage := ⟨[[1], [2], [3]], some 40⟩

def envOk : Env :=
  ⟨fun _ => some gifOk, fun fr => 0 :: fr, fun fr => 7 :: fr,
    fun b _ => Except.ok (9 :: b), fun _ _ => none, fun _ _ => none, fun _ => false⟩

def envZero : Env :=
  ⟨fun _ => some ⟨[], none⟩, fun fr => fr, fun fr => fr,
    fun b _ => Except.ok b, fun _ _ => none, fun _ _ => none, fun _ => false⟩

def envFail : Env :=
  ⟨fun _ => some gifOk, fun fr => 0 :: fr, fun fr => 7 :: fr,
    fun b _ => Except.ok (9 :: b), fun _ _ => some (Err.osError "disk full"),
    fun _ _ => none, fun _ => false⟩

def altDec : Bytes → Option GIFImage := fun _ => some ⟨[[1], [2], [3]], some 200⟩

def fsOk : FS := ⟨[("in.gif", [5])], []⟩

def fsPng : FS := ⟨[("in.png", [5])], []⟩

def fsD : FS := ⟨[("in.gif", [5])], ["out"]⟩

def fsD2 : FS := ⟨[("in.gif", [5]), ("out/frame_000.png", [9])], ["out"]⟩

def sess0 : Session := ⟨0, none⟩

def st0 : St := ⟨⟨[], []⟩, []⟩

/-! ### Arithmetic facts about the decimal rendering `pad3` -/

theorem ofDigitsLE_decDigitsAux : ∀ (f n : Nat), n ≤ f → ofDigitsLE (decDigitsAux f n) = n := by
  intro f
  induction f with
  | zero => intro n h; interval_cases n; rfl
  | succ f ih =>
    intro n h
    by_cases hn : n = 0
    · subst hn; simp [decDigitsAux, ofDigitsLE]
    · have hdiv : n / 10 ≤ f := by
        have : n / 10 < n := Nat.div_lt_self (Nat.pos_of_ne_zero hn) (by omega)
        omega
      simp only [decDigitsAux, if_neg hn, ofDigitsLE, ih _ hdiv]
      omega

theorem decDigitsAux_lt : ∀ (f n d : Nat), d ∈ decDigitsAux f n → d < 10 := by
  intro f
  induction f with
  | zero => intro n d h; simp [decDigitsAux] at h
  | succ f ih =>
    intro n d h
    by_cases hn : n = 0
    · subst hn; simp [decDigitsAux] at h
    · simp only [decDigitsAux, if_neg hn, List.mem_cons] at h
      rcases h with h | h
      · subst h; exact Nat.mod_lt _ (by omega)
      · exact ih _ _ h

theorem digitChar_toNat (d : Nat) (h : d < 10) : (digitChar d).toNat = 48 + d := by
  interval_cases d <;> rfl

theorem foldl_parseStep_digits :
    ∀ (l : List Nat) (a : Nat), (∀ d ∈ l, d < 10) →
      List.foldl parseStep a ((l.map digitChar).reverse) = a * 10 ^ l.length + ofDigitsLE l := by
  intro l
  induction l with
  | nil => intro a _; simp [ofDigitsLE]
  | cons d l ih =>
    intro a hlt
    have hd : d < 10 := hlt d (by simp)
    simp only [List.map_cons, List.reverse_cons, List.foldl_append]
    rw [ih a (fun x hx => hlt x (by simp [hx]))]
    simp only [List.foldl_cons, List.foldl_nil, parseStep, ofDigitsLE, digitChar_toNat d hd,
      List.length_cons, pow_succ]
    ring_nf
    omega

theorem foldl_parseStep_replicate (k : Nat) :
    List.foldl parseStep 0 (List.replicate k '0') = 0 := by
  induction k with
  | zero => rfl
  | succ k ih => simpa [List.replicate_succ, parseStep] using ih

theorem parseVal_pad3 (n : Nat) : parseVal (pad3 n) = n := by
  by_cases hn : n = 0
  · subst hn; decide
  · show List.foldl parseStep 0 (List.replicate (3 - (decRepr n).length) '0' ++ (decRepr n).data) = n
    rw [List.foldl_append, foldl_parseStep_replicate]
    have hdata : (decRepr n).data = ((decDigitsAux n n).map digitChar).reverse := by
      simp [decRepr, if_neg hn]
    rw [hdata, foldl_parseStep_digits _ 0 (fun d hd => decDigitsAux_lt n n d hd)]
    simp [ofDigitsLE_decDigitsAux n n (Nat.le_refl n)]

theorem pad3_data_inj {m n : Nat} (h : (pad3 m).data = (pad3 n).data) : m = n := by
  have h2 : pad3 m = pad3 n := by
    cases hm : pad3 m; cases hn : pad3 n
    simp_all
  calc m = parseVal (pad3 m) := (parseVal_pad3 m).symm
    _ = parseVal (pad3 n) := by rw [h2]
    _ = n := parseVal_pad3 n

theorem digitChar_isDigit (d : Nat) (h : d < 10) : (digitChar d).isDigit = true := by
  interval_cases d <;> rfl

theorem pad3_isDigit (n : Nat) : ∀ c ∈ (pad3 n).data, c.isDigit = true := by
  intro c hc
  have : (pad3 n).data = List.replicate (3 - (decRepr n).length) '0' ++ (decRepr n).data := rfl
  rw [this, List.mem_append] at hc
  rcases hc with hc | hc
  · rw [List.eq_of_mem_replicate hc]; rfl
  · by_cases hn : n = 0
    · subst hn; simp [decRepr] at hc; rw [hc]; rfl
    · have : (decRepr n).data = ((decDigitsAux n n).map digitChar).reverse := by
        simp [decRepr, if_neg hn]
      rw [this, List.mem_reverse, List.mem_map] at hc
      obtain ⟨d, hd, rfl⟩ := hc
      exact digitChar_isDigit d (decDigitsAux_lt n n d hd)

/-! ### Splitting a digit run followed by a non-digit -/

theorem digitsSplit :
    ∀ (l₁ l₂ r₁ r₂ : List Char),
      (∀ c ∈ l₁, c.isDigit = true) → (∀ c ∈ l₂, c.isDigit = true) →
      (∀ c, r₁.head? = some c → c.isDigit = false) →
      (∀ c, r₂.head? = some c → c.isDigit = false) →
      l₁ ++ r₁ = l₂ ++ r₂ → l₁ = l₂ ∧ r₁ = r₂ := by
  intro l₁
  induction l₁ with
  | nil =>
    intro l₂ r₁ r₂ _ hd₂ hr₁ _ h
    cases l₂ with
    | nil => exact ⟨rfl, h⟩
    | cons c l₂ =>
      exfalso
      have hc : r₁.head? = some c := by
        rw [List.nil_append] at h; rw [h]; rfl
      have := hr₁ c hc
      have := hd₂ c (by simp)
      simp_all
  | cons c l₁ ih =>
    intro l₂ r₁ r₂ hd₁ hd₂ hr₁ hr₂ h
    cases l₂ with
    | nil =>
      exfalso
      have hc : r₂.head? = some c := by
        rw [List.nil_append] at h; rw [← h]; rfl
      have := hr₂ c hc
      have := hd₁ c (by simp)
      simp_all
    | cons c₂ l₂ =>
      simp only [List.cons_append, List.cons.injEq] at h
      obtain ⟨rfl, h⟩ := h
      obtain ⟨h1, h2⟩ := ih l₂ r₁ r₂ (fun x hx => hd₁ x (by simp [hx]))
        (fun x hx => hd₂ x (by simp [hx])) hr₁ hr₂ h
      exact ⟨by rw [h1], h2⟩

/-! ### Artifact path facts -/

theorem head_png_nonDigit : ∀ c : Char, (".png".data).head? = some c → c.isDigit = false := by
  intro c hc
  have h : ".png".data = ['.', 'p', 'n', 'g'] := rfl
  rw [h] at hc
  simp only [List.head?_cons, Option.some.injEq] at hc
  subst hc; rfl

theorem head_bg_nonDigit : ∀ c : Char, ("_bg_removed.png".data).head? = some c → c.isDigit = false := by
  intro c hc
  have h : "_bg_removed.png".data = '_' :: "bg_removed.png".data := rfl
  rw [h] at hc
  simp only [List.head?_cons, Option.some.injEq] at hc
  subst hc; rfl

theorem tempFramePath_inj {out : String} {i j : Nat}
    (h : tempFramePath out i = tempFramePath out j) : i = j := by
  have hd := congrArg String.data h
  simp only [tempFramePath, String.data_append, List.append_assoc] at hd
  have hd3 := List.append_cancel_left (List.append_cancel_left hd)
  exact pad3_data_inj (digitsSplit _ _ _ _ (pad3_isDigit i) (pad3_isDigit j)
    head_png_nonDigit head_png_nonDigit hd3).1

theorem outFramePath_inj {out : String} {i j : Nat}
    (h : outFramePath out i = outFramePath out j) : i = j := by
  have hd := congrArg String.data h
  simp only [outFramePath, String.data_append, List.append_assoc] at hd
  have hd3 := List.append_cancel_left (List.append_cancel_left hd)
  exact pad3_data_inj (digitsSplit _ _ _ _ (pad3_isDigit i) (pad3_isDigit j)
    head_bg_nonDigit head_bg_nonDigit hd3).1

theorem tempFramePath_ne_outFramePath (out : String) (i j : Nat) :
    ¬ (tempFramePath out i = outFramePath out j) := by
  intro h
  have hd := congrArg String.data h
  simp only [tempFramePath, outFramePath, String.data_append, List.append_assoc] at hd
  have hd3 := List.append_cancel_left (List.append_cancel_left hd)
  have hs := digitsSplit _ _ _ _ (pad3_isDigit i) (pad3_isDigit j)
    head_png_nonDigit head_bg_nonDigit hd3
  exact absurd hs.2 (by decide)

theorem underDir_of_data (dir p : String) (rest : List Char)
    (h : p.data = dir.data ++ '/' :: rest) : underDir dir p = true := by
  simp only [underDir, h]
  have h2 : dir.data ++ '/' :: rest = (dir.data ++ ['/']) ++ rest := by simp
  have hl : (dir.data ++ ['/']).length = dir.data.length + 1 := by simp
  rw [h2, ← hl, List.take_left]
  simp

theorem tempFramePath_data (out : String) (i : Nat) :
    (tempFramePath out i).data
      = out.data ++ '/' :: ("frame_".data ++ (pad3 i).data ++ ".png".data) := by
  have h : "/frame_".data = '/' :: "frame_".data := rfl
  simp [tempFramePath, String.data_append, h]

theorem outFramePath_data (out : String) (i : Nat) :
    (outFramePath out i).data
      = out.data ++ '/' :: ("frame_".data ++ (pad3 i).data ++ "_bg_removed.png".data) := by
  have h : "/frame_".data = '/' :: "frame_".data := rfl
  simp [outFramePath, String.data_append, h]

theorem underDir_tempFramePath (out : String) (i : Nat) :
    underDir out (tempFramePath out i) = true :=
  underDir_of_data out _ _ (tempFramePath_data out i)

theorem underDir_outFramePath (out : String) (i : Nat) :
    underDir out (outFramePath out i) = true :=
  underDir_of_data out _ _ (outFramePath_data out i)

/-! ### The suffix of a path is a suffix of its text -/

theorem pathNameChars_isSuffix (p : String) :
    ∃ pre, p.data = pre ++ pathNameChars p := by
  refine ⟨(p.data.reverse.dropWhile (fun c => ! (c == '/'))).reverse, ?_⟩
  have h := List.takeWhile_append_dropWhile (p := fun c => ! (c == '/')) (l := p.data.reverse)
  calc p.data = p.data.reverse.reverse := by simp
    _ = (p.data.reverse.takeWhile (fun c => ! (c == '/'))
          ++ p.data.reverse.dropWhile (fun c => ! (c == '/'))).reverse := by rw [h]
    _ = _ := by rw [List.reverse_append]; rfl

theorem suffix_isSuffix (p : String) : ∃ pre, p.data = pre ++ (suffix p).data := by
  obtain ⟨pre, hpre⟩ := pathNameChars_isSuffix p
  simp only [suffix]
  split
  · split
    · refine ⟨pre ++ (pathNameChars p).take (List.length (pathNameChars p) - 1
        - List.findIdx (fun c => c == '.') (List.reverse (pathNameChars p))), ?_⟩
      rw [hpre, List.append_assoc, List.take_append_drop]
    · exact ⟨p.data, by simp⟩
  · exact ⟨p.data, by simp⟩

theorem gifSuffix_ne_pngTail (input : String) (hs : strToLower (suffix input) = ".gif")
    (pre : List Char) (h : input.data = pre ++ ['.', 'p', 'n', 'g']) : False := by
  obtain ⟨pre2, hpre2⟩ := suffix_isSuffix input
  have hmap : (suffix input).data.map Char.toLower = ".gif".data := congrArg String.data hs
  have hlen : (suffix input).data.length = 4 := by
    have := congrArg List.length hmap
    simpa using this
  have hcomb : pre ++ ['.', 'p', 'n', 'g'] = pre2 ++ (suffix input).data := by
    rw [← h, ← hpre2]
  have hinj := List.append_inj' hcomb (by simp [hlen])
  have : (suffix input).data = ['.', 'p', 'n', 'g'] := hinj.2.symm
  rw [this] at hmap
  exact absurd hmap (by decide)

theorem gif_ne_tempFramePath (input out : String) (i : Nat)
    (hs : strToLower (suffix input) = ".gif") : ¬ (input = tempFramePath out i) := by
  intro h
  have hd : input.data = (out.data ++ '/' :: ("frame_".data ++ (pad3 i).data)) ++ ['.', 'p', 'n', 'g'] := by
    rw [h, tempFramePath_data]
    have : ".png".data = ['.', 'p', 'n', 'g'] := rfl
    simp [this]
  exact gifSuffix_ne_pngTail input hs _ hd

theorem gif_ne_outFramePath (input out : String) (i : Nat)
    (hs : strToLower (suffix input) = ".gif") : ¬ (input = outFramePath out i) := by
  intro h
  have hd : input.data
      = (out.data ++ '/' :: ("frame_".data ++ (pad3 i).data ++ "_bg_removed".data)) ++ ['.', 'p', 'n', 'g'] := by
    rw [h, outFramePath_data]
    have hbg : "_bg_removed.png".data = "_bg_removed".data ++ ['.', 'p', 'n', 'g'] := by decide
    simp [hbg]
  exact gifSuffix_ne_pngTail input hs _ hd

/-! ### Filesystem lemmas -/

theorem lookup_eq_none_iff (p : String) :
    ∀ l : List (String × Bytes), List.lookup p l = none ↔ ∀ e ∈ l, ¬ (e.1 = p) := by
  intro l
  induction l with
  | nil => simp
  | cons e t ih =>
    cases e with
    | mk k v =>
      by_cases hk : p = k
      · subst hk
        simp [List.lookup_cons]
      · have hb : (p == k) = false := by simp [hk]
        simp only [List.lookup_cons, hb, List.mem_cons]
        rw [ih]
        constructor
        · intro h x hx
          rcases hx with hx | hx
          · subst hx; simp; exact fun he => hk he.symm
          · exact h x hx
        · intro h x hx
          exact h x (Or.inr hx)

theorem lookup_append_sb (p : String) (l₁ l₂ : List (String × Bytes)) :
    List.lookup p (l₁ ++ l₂)
      = match List.lookup p l₁ with
        | some v => some v
        | none => List.lookup p l₂ := by
  induction l₁ with
  | nil => simp
  | cons e t ih =>
    cases e with
    | mk k v =>
      by_cases hk : p = k
      · subst hk; simp [List.lookup_cons]
      · have hb : (p == k) = false := by simp [hk]
        simp only [List.cons_append, List.lookup_cons, hb, ih]

theorem lookup_replace (l : List (String × Bytes)) (p q : String) (b : Bytes) :
    List.lookup q (l.map (fun e => if e.1 = p then (p, b) else e))
      = if q = p then (List.lookup q l).map (fun _ => b) else List.lookup q l := by
  induction l with
  | nil => simp
  | cons e t ih =>
    cases e with
    | mk k v =>
      by_cases hk : k = p
      · subst hk
        by_cases hq : q = k
        · subst hq; simp [List.lookup_cons, ih]
        · have hb : (q == k) = false := by simp [hq]
          simp [List.lookup_cons, hb, ih, hq]
      · by_cases hq : q = k
        · subst hq
          have hqp : ¬ (q = p) := hk
          simp [List.lookup_cons, hk, hqp]
        · have hb : (q == k) = false := by simp [hq]
          simp [List.lookup_cons, hk, hb, ih]

theorem FS.lookupFile_writeFile_self (fs : FS) (p : String) (b : Bytes) :
    (fs.writeFile p b).lookupFile p = some b := by
  simp only [FS.writeFile]
  split
  · simp only [FS.lookupFile, lookup_replace, if_pos rfl]
    rename_i h
    simp only [FS.fileExists, FS.lookupFile, Option.isSome] at h
    split at h
    · rename_i v hv; rw [hv]; rfl
    · simp at h
  · simp only [FS.lookupFile, lookup_append_sb]
    rename_i h
    simp only [FS.fileExists, FS.lookupFile, Option.isSome_iff_exists] at h
    push_neg at h
    have hnone : List.lookup p fs.files = none := by
      cases hl : List.lookup p fs.files with
      | none => rfl
      | some v => exact absurd hl (h v)
    rw [hnone]
    simp [List.lookup_cons]

theorem FS.lookupFile_writeFile_ne (fs : FS) (p q : String) (b : Bytes) (h : ¬ (q = p)) :
    (fs.writeFile p b).lookupFile q = fs.lookupFile q := by
  simp only [FS.writeFile]
  split
  · simp [FS.lookupFile, lookup_replace, h]
  · simp only [FS.lookupFile, lookup_append_sb]
    have hb : (q == p) = false := by simp [h]
    simp only [List.lookup_cons, hb]
    cases hl : List.lookup q fs.files <;> simp [hl]

theorem FS.lookupFile_eraseFile_ne (fs : FS) (p q : String) (h : ¬ (q = p)) :
    (fs.eraseFile p).lookupFile q = fs.lookupFile q := by
  simp only [FS.eraseFile, FS.lookupFile]
  induction fs.files with
  | nil => rfl
  | cons e t ih =>
    cases e with
    | mk k v =>
      by_cases hk : k = p
      · subst hk
        have hb : (q == k) = false := by simp [h]
        simp [List.lookup_cons, hb, ih]
      · by_cases hq : q = k
        · subst hq; simp [List.lookup_cons, hk]
        · have hb : (q == k) = false := by simp [hq]
          simp only [List.filter_cons]
          split <;> simp [List.lookup_cons, hb, ih]

theorem FS.writeFile_dirs (fs : FS) (p : String) (b : Bytes) :
    (fs.writeFile p b).dirs = fs.dirs := by
  simp only [FS.writeFile]; split <;> rfl

theorem FS.eraseFile_dirs (fs : FS) (p : String) :
    (fs.eraseFile p).dirs = fs.dirs := rfl

theorem FS.mkdirP_files (fs : FS) (p : String) :
    (fs.mkdirP p).files = fs.files := by
  simp only [FS.mkdirP]; split <;> rfl

theorem FS.mkdirP_dirs_mem (fs : FS) (p d : String) (h : d ∈ fs.dirs) :
    d ∈ (fs.mkdirP p).dirs := by
  simp only [FS.mkdirP]
  split
  · exact h
  · simp [h]

theorem FS.writeFile_files_fresh (fs : FS) (p : String) (b : Bytes)
    (h : fs.fileExists p = false) : (fs.writeFile p b).files = fs.files ++ [(p, b)] := by
  simp only [FS.writeFile, h]
  rfl

theorem FS.eraseFile_fresh (fs : FS) (p : String) (h : fs.fileExists p = false) :
    fs.eraseFile p = fs := by
  simp only [FS.eraseFile]
  have hnone : List.lookup p fs.files = none := by
    simp only [FS.fileExists, FS.lookupFile] at h
    cases hl : List.lookup p fs.files with
    | none => rfl
    | some v => rw [hl] at h; simp at h
  have hall := (lookup_eq_none_iff p fs.files).mp hnone
  have : fs.files.filter (fun e => ! (e.1 == p)) = fs.files := by
    rw [List.filter_eq_self]
    intro e he
    simp [hall e he]
  rw [this]


/-! ### Per-frame structural lemmas, arbitrary environment -/

theorem frameBody_shape (env : Env) (session : Session) (out : String) (i : Nat)
    (frame : FrameT) (st : St) :
    ((frameBody env session out i frame st).1.fs.dirs = st.fs.dirs)
    ∧ ((frameBody env session out i frame st).1.events = st.events
        ∨ (frameBody env session out i frame st).1.events
            = st.events ++ [Event.evRemove i session.sid])
    ∧ (∀ p, ¬ (p = tempFramePath out i) → ¬ (p = outFramePath out i) →
        (frameBody env session out i frame st).1.fs.lookupFile p = st.fs.lookupFile p) := by
  simp only [frameBody]
  split
  · exact ⟨rfl, Or.inl rfl, fun p _ _ => rfl⟩
  · split
    · exact ⟨FS.writeFile_dirs _ _ _, Or.inr rfl,
        fun p h1 _ => FS.lookupFile_writeFile_ne _ _ _ _ h1⟩
    · split
      · exact ⟨FS.writeFile_dirs _ _ _, Or.inr rfl,
          fun p h1 _ => FS.lookupFile_writeFile_ne _ _ _ _ h1⟩
      · refine ⟨?_, Or.inr rfl, fun p h1 h2 => ?_⟩
        · show ((st.fs.writeFile _ _).writeFile _ _).dirs = st.fs.dirs
          rw [FS.writeFile_dirs, FS.writeFile_dirs]
        · show ((st.fs.writeFile _ _).writeFile _ _).lookupFile p = st.fs.lookupFile p
          rw [FS.lookupFile_writeFile_ne _ _ _ _ h2, FS.lookupFile_writeFile_ne _ _ _ _ h1]

theorem frameCleanup_shape (env : Env) (keep : Bool) (tempPath : String) (st : St) :
    ((frameCleanup env keep tempPath st).1.fs.dirs = st.fs.dirs)
    ∧ ((frameCleanup env keep tempPath st).1.events = st.events)
    ∧ (∀ p, ¬ (p = tempPath) →
        (frameCleanup env keep tempPath st).1.fs.lookupFile p = st.fs.lookupFile p) := by
  simp only [frameCleanup]
  split
  · exact ⟨rfl, rfl, fun p _ => rfl⟩
  · split
    · split
      · exact ⟨rfl, rfl, fun p _ => rfl⟩
      · exact ⟨rfl, rfl, fun p hp => FS.lookupFile_eraseFile_ne _ _ _ hp⟩
    · exact ⟨rfl, rfl, fun p _ => rfl⟩

theorem processFrame_shape (env : Env) (keep : Bool) (session : Session) (out : String)
    (i : Nat) (frame : FrameT) (st : St) :
    ((processFrame env keep session out i frame st).1.fs.dirs = st.fs.dirs)
    ∧ ((processFrame env keep session out i frame st).1.events = st.events
        ∨ (processFrame env keep session out i frame st).1.events
            = st.events ++ [Event.evRemove i session.sid])
    ∧ (∀ p, ¬ (p = tempFramePath out i) → ¬ (p = outFramePath out i) →
        (processFrame env keep session out i frame st).1.fs.lookupFile p = st.fs.lookupFile p) := by
  obtain ⟨hb1, hb2, hb3⟩ := frameBody_shape env session out i frame st
  obtain ⟨hc1, hc2, hc3⟩ := frameCleanup_shape env keep (tempFramePath out i)
    (frameBody env session out i frame st).1
  have he : (processFrame env keep session out i frame st).1
      = (frameCleanup env keep (tempFramePath out i) (frameBody env session out i frame st).1).1 := rfl
  refine ⟨?_, ?_, ?_⟩
  · rw [he, hc1, hb1]
  · rw [he, hc2]; exact hb2
  · intro p h1 h2
    rw [he, hc3 p h1, hb3 p h1 h2]

/-! ### Loop lemmas, arbitrary environment -/

theorem processFrames_preserves (env : Env) (keep : Bool) (session : Session) (out : String) :
    ∀ (frames : List FrameT) (i : Nat) (st : St),
      ((processFrames env keep session out frames i st).1.fs.dirs = st.fs.dirs)
      ∧ (∀ p, (∀ j, ¬ (p = tempFramePath out j) ∧ ¬ (p = outFramePath out j)) →
          (processFrames env keep session out frames i st).1.fs.lookupFile p
            = st.fs.lookupFile p) := by
  intro frames
  induction frames with
  | nil => intro i st; exact ⟨rfl, fun p _ => rfl⟩
  | cons fr rest ih =>
    intro i st
    obtain ⟨hf1, hf2, hf3⟩ := processFrame_shape env keep session out i fr st
    simp only [processFrames]
    cases hpf : processFrame env keep session out i fr st with
    | mk st1 oe =>
      cases oe with
      | some e =>
        rw [hpf] at hf1 hf3
        exact ⟨hf1, fun p hp => hf3 p (hp i).1 (hp i).2⟩
      | none =>
        obtain ⟨hr1, hr2⟩ := ih (i+1) st1
        rw [hpf] at hf1 hf3
        refine ⟨by rw [hr1]; exact hf1, fun p hp => ?_⟩
        rw [hr2 p hp]
        exact hf3 p (hp i).1 (hp i).2

theorem processFrames_events (env : Env) (keep : Bool) (session : Session) (out : String) :
    ∀ (frames : List FrameT) (i : Nat) (st : St),
      ∃ l, (processFrames env keep session out frames i st).1.events = st.events ++ l
        ∧ (∀ e ∈ l, ∃ k, i ≤ k ∧ e = Event.evRemove k session.sid)
        ∧ (∀ m, (l.filter (isRemoveOf m)).length ≤ 1) := by
  intro frames
  induction frames with
  | nil =>
    intro i st
    exact ⟨[], by simp [processFrames], by simp, by simp⟩
  | cons fr rest ih =>
    intro i st
    obtain ⟨hf1, hf2, hf3⟩ := processFrame_shape env keep session out i fr st
    simp only [processFrames]
    cases hpf : processFrame env keep session out i fr st with
    | mk st1 oe =>
      rw [hpf] at hf2
      have hl0 : ∃ l0, st1.events = st.events ++ l0
          ∧ (∀ e ∈ l0, e = Event.evRemove i session.sid) ∧ l0.length ≤ 1 := by
        rcases hf2 with h | h
        · exact ⟨[], by simpa using h, by simp, by simp⟩
        · exact ⟨[Event.evRemove i session.sid], by simpa using h, by simp, by simp⟩
      obtain ⟨l0, hl0e, hl0m, hl0len⟩ := hl0
      have hcount0 : ∀ m, (l0.filter (isRemoveOf m)).length ≤ 1 := by
        intro m
        calc (l0.filter (isRemoveOf m)).length ≤ l0.length := List.length_filter_le _ _
          _ ≤ 1 := hl0len
      cases oe with
      | some e => exact ⟨l0, hl0e, fun ev hev => ⟨i, Nat.le_refl i, hl0m ev hev⟩, hcount0⟩
      | none =>
        obtain ⟨l1, hl1e, hl1m, hl1c⟩ := ih (i+1) st1
        refine ⟨l0 ++ l1, ?_, ?_, ?_⟩
        · rw [hl1e, hl0e, List.append_assoc]
        · intro ev hev
          rw [List.mem_append] at hev
          rcases hev with hev | hev
          · exact ⟨i, Nat.le_refl i, hl0m ev hev⟩
          · obtain ⟨k, hk, hke⟩ := hl1m ev hev
            exact ⟨k, by omega, hke⟩
        · intro m
          rw [List.filter_append, List.length_append]
          by_cases hm : m = i
          · subst hm
            have hz : (l1.filter (isRemoveOf m)).length = 0 := by
              rw [List.length_eq_zero]
              rw [List.filter_eq_nil_iff]
              intro ev hev
              obtain ⟨k, hk, hke⟩ := hl1m ev hev
              subst hke
              simp [isRemoveOf]
              omega
            have := hcount0 m
            omega
          · have hz : (l0.filter (isRemoveOf m)).length = 0 := by
              rw [List.length_eq_zero, List.filter_eq_nil_iff]
              intro ev hev
              rw [hl0m ev hev]
              simp [isRemoveOf]
              omega
            have := hl1c m
            omega

/-! ### The fault-free run: exact artifact layout -/


theorem lookup_of_fileExists_false (fs : FS) (p : String) (h : fs.fileExists p = false) :
    List.lookup p fs.files = none := by
  simp only [FS.fileExists, FS.lookupFile] at h
  cases hl : List.lookup p fs.files with
  | none => rfl
  | some v => rw [hl] at h; simp at h

theorem lookup_pair_none (p k : String) (v : Bytes) (h : ¬ (p = k)) :
    List.lookup p [(k, v)] = none := by
  have hb : (p == k) = false := by simp [h]
  simp [List.lookup_cons, hb]

theorem lookup_two_none (p k1 k2 : String) (v1 v2 : Bytes)
    (ha : ¬ (p = k1)) (hb : ¬ (p = k2)) :
    List.lookup p [(k1, v1), (k2, v2)] = none := by
  have ha' : (p == k1) = false := by simp [ha]
  have hb' : (p == k2) = false := by simp [hb]
  simp [List.lookup_cons, ha', hb']

theorem fileExists_append_tail (l tail : List (String × Bytes)) (d : List String) (p : String)
    (hl : List.lookup p l = none) (ht : List.lookup p tail = none) :
    FS.fileExists ⟨l ++ tail, d⟩ p = false := by
  simp only [FS.fileExists, FS.lookupFile, lookup_append_sb, hl, ht]
  rfl

theorem FS.writeFile_fresh_eq (fs : FS) (p : String) (b : Bytes) (h : fs.fileExists p = false) :
    fs.writeFile p b = ⟨fs.files ++ [(p, b)], fs.dirs⟩ := by
  simp only [FS.writeFile, h]
  rfl

theorem processFrame_noFaults (env : Env) (f : Bytes → Session → Bytes) (keep : Bool)
    (session : Session) (out : String) (i : Nat) (fr : FrameT) (st : St)
    (h1 : ∀ p b, env.saveFails p b = none) (h2 : ∀ p b, env.writeFails p b = none)
    (h3 : ∀ p, env.unlinkOtherFail p = false)
    (h4 : ∀ b s, env.removeBg b s = Except.ok (f b s))
    (hti : st.fs.fileExists (tempFramePath out i) = false)
    (hoi : st.fs.fileExists (outFramePath out i) = false) :
    processFrame env keep session out i fr st
      = (⟨⟨st.fs.files
            ++ ((if keep then [(tempFramePath out i, env.pngEncode (env.convertRGBA fr))] else [])
              ++ [(outFramePath out i, f (env.pngEncode (env.convertRGBA fr)) session)]),
          st.fs.dirs⟩,
          st.events ++ [Event.evRemove i session.sid]⟩, none) := by
  have htio : ¬ (tempFramePath out i = outFramePath out i) := tempFramePath_ne_outFramePath out i i
  have hoit : ¬ (outFramePath out i = tempFramePath out i) := fun h => htio h.symm
  have hlook : ((st.fs.writeFile (tempFramePath out i)
        (env.pngEncode (env.convertRGBA fr))).lookupFile (tempFramePath out i)).getD []
      = env.pngEncode (env.convertRGBA fr) := by
    rw [FS.lookupFile_writeFile_self]; rfl
  have hbody : frameBody env session out i fr st
      = ({ fs := (st.fs.writeFile (tempFramePath out i)
              (env.pngEncode (env.convertRGBA fr))).writeFile (outFramePath out i)
              (f (env.pngEncode (env.convertRGBA fr)) session),
           events := st.events ++ [Event.evRemove i session.sid] }, none) := by
    simp only [frameBody, h1, hlook, h4, h2]
  simp only [processFrame, hbody]
  generalize env.pngEncode (env.convertRGBA fr) = png
  generalize f png session = v
  have hfs1 : st.fs.writeFile (tempFramePath out i) png
      = ⟨st.fs.files ++ [(tempFramePath out i, png)], st.fs.dirs⟩ :=
    FS.writeFile_fresh_eq _ _ _ hti
  have hex2 : FS.fileExists
      ⟨st.fs.files ++ [(tempFramePath out i, png)], st.fs.dirs⟩ (outFramePath out i) = false :=
    fileExists_append_tail _ _ _ _ (lookup_of_fileExists_false _ _ hoi)
      (lookup_pair_none _ _ _ hoit)
  have hfs2 : (st.fs.writeFile (tempFramePath out i) png).writeFile (outFramePath out i) v
      = ⟨st.fs.files ++ [(tempFramePath out i, png), (outFramePath out i, v)], st.fs.dirs⟩ := by
    rw [hfs1, FS.writeFile_fresh_eq _ _ _ hex2]
    simp
  cases keep with
  | true =>
    simp only [frameCleanup, if_pos]
    rw [hfs2]
    simp
  | false =>
    have hexT : FS.fileExists
        ⟨st.fs.files ++ [(tempFramePath out i, png), (outFramePath out i, v)], st.fs.dirs⟩
        (tempFramePath out i) = true := by
      simp only [FS.fileExists, FS.lookupFile, lookup_append_sb,
        lookup_of_fileExists_false _ _ hti]
      simp [List.lookup_cons]
    have hkeys : ∀ e ∈ st.fs.files, ¬ (e.1 = tempFramePath out i) :=
      (lookup_eq_none_iff _ _).mp (lookup_of_fileExists_false _ _ hti)
    have hobeq : ((outFramePath out i : String) == tempFramePath out i) = false := by
      simp [hoit]
    have herase : FS.eraseFile
        ⟨st.fs.files ++ [(tempFramePath out i, png), (outFramePath out i, v)], st.fs.dirs⟩
        (tempFramePath out i)
        = ⟨st.fs.files ++ [(outFramePath out i, v)], st.fs.dirs⟩ := by
      simp only [FS.eraseFile, List.filter_append]
      rw [List.filter_eq_self.mpr (by intro e he; simp [hkeys e he])]
      simp [List.filter_cons, hobeq]
    simp only [frameCleanup, hfs2, hexT, h3]
    simp [herase]

theorem events_shift (i n sid : Nat) (es : List Event) :
    (es ++ [Event.evRemove i sid]) ++ (List.range n).map (fun k => Event.evRemove (i+1+k) sid)
      = es ++ (List.range (n+1)).map (fun k => Event.evRemove (i+k) sid) := by
  rw [List.append_assoc]
  congr 1
  rw [List.range_succ_eq_map]
  simp only [List.map_cons, List.map_map, Nat.add_zero, List.singleton_append]
  congr 1
  apply List.map_congr_left
  intro a _
  simp only [Function.comp_apply]
  have hza : i + 1 + a = i + (a + 1) := by omega
  rw [hza]

theorem processFrames_noFaults (env : Env) (f : Bytes → Session → Bytes) (keep : Bool)
    (session : Session) (out : String)
    (h1 : ∀ p b, env.saveFails p b = none) (h2 : ∀ p b, env.writeFails p b = none)
    (h3 : ∀ p, env.unlinkOtherFail p = false)
    (h4 : ∀ b s, env.removeBg b s = Except.ok (f b s)) :
    ∀ (frames : List FrameT) (i : Nat) (st : St),
      (∀ j, i ≤ j → st.fs.fileExists (tempFramePath out j) = false
          ∧ st.fs.fileExists (outFramePath out j) = false) →
      processFrames env keep session out frames i st
        = (⟨⟨st.fs.files ++ artifactEntries env f session keep out i frames, st.fs.dirs⟩,
            st.events ++ (List.range frames.length).map
              (fun k => Event.evRemove (i+k) session.sid)⟩, none) := by
  intro frames
  induction frames with
  | nil =>
    intro i st hfresh
    simp [processFrames, artifactEntries]
  | cons fr rest ih =>
    intro i st hfresh
    have hstep := processFrame_noFaults env f keep session out i fr st h1 h2 h3 h4
      (hfresh i (Nat.le_refl i)).1 (hfresh i (Nat.le_refl i)).2
    simp only [processFrames, hstep]
    have hfresh' : ∀ j, i + 1 ≤ j →
        FS.fileExists ⟨st.fs.files
            ++ ((if keep then [(tempFramePath out i, env.pngEncode (env.convertRGBA fr))] else [])
              ++ [(outFramePath out i, f (env.pngEncode (env.convertRGBA fr)) session)]),
          st.fs.dirs⟩ (tempFramePath out j) = false
        ∧ FS.fileExists ⟨st.fs.files
            ++ ((if keep then [(tempFramePath out i, env.pngEncode (env.convertRGBA fr))] else [])
              ++ [(outFramePath out i, f (env.pngEncode (env.convertRGBA fr)) session)]),
          st.fs.dirs⟩ (outFramePath out j) = false := by
      intro j hj
      have hij : ¬ (j = i) := by omega
      have ht1 : ¬ (tempFramePath out j = tempFramePath out i) :=
        fun h => hij (tempFramePath_inj h)
      have ht2 : ¬ (tempFramePath out j = outFramePath out i) :=
        tempFramePath_ne_outFramePath out j i
      have ho1 : ¬ (outFramePath out j = tempFramePath out i) :=
        fun h => tempFramePath_ne_outFramePath out i j h.symm
      have ho2 : ¬ (outFramePath out j = outFramePath out i) :=
        fun h => hij (outFramePath_inj h)
      have hjle : i ≤ j := by omega
      cases keep with
      | true =>
        constructor
        · exact fileExists_append_tail _ _ _ _
            (lookup_of_fileExists_false _ _ (hfresh j hjle).1)
            (lookup_two_none _ _ _ _ _ ht1 ht2)
        · exact fileExists_append_tail _ _ _ _
            (lookup_of_fileExists_false _ _ (hfresh j hjle).2)
            (lookup_two_none _ _ _ _ _ ho1 ho2)
      | false =>
        constructor
        · exact fileExists_append_tail _ _ _ _
            (lookup_of_fileExists_false _ _ (hfresh j hjle).1)
            (lookup_pair_none _ _ _ ht2)
        · exact fileExists_append_tail _ _ _ _
            (lookup_of_fileExists_false _ _ (hfresh j hjle).2)
            (lookup_pair_none _ _ _ ho2)
    rw [ih (i+1) _ hfresh']
    simp only [artifactEntries, List.length_cons]
    rw [← events_shift i rest.length session.sid st.events]
    simp [List.append_assoc]

theorem FS.mkdirP_lookupFile (fs : FS) (p q : String) :
    (fs.mkdirP p).lookupFile q = fs.lookupFile q := by
  simp only [FS.lookupFile, FS.mkdirP_files]

theorem FS.mkdirP_fileExists (fs : FS) (p q : String) :
    (fs.mkdirP p).fileExists q = fs.fileExists q := by
  simp only [FS.fileExists, FS.mkdirP_lookupFile]

theorem fileExists_false_of_underDir (fs : FS) (out p : String)
    (hfresh : ∀ e ∈ fs.files, underDir out e.1 = false) (hp : underDir out p = true) :
    fs.fileExists p = false := by
  have hnone : List.lookup p fs.files = none := by
    rw [lookup_eq_none_iff]
    intro e he heq
    have := hfresh e he
    rw [heq, hp] at this
    exact absurd this (by simp)
  simp [FS.fileExists, FS.lookupFile, hnone]

theorem paths_shift (g : Nat → String) (i n : Nat) :
    g i :: (List.range n).map (fun k => g (i+1+k)) = (List.range (n+1)).map (fun k => g (i+k)) := by
  rw [List.range_succ_eq_map]
  simp only [List.map_cons, List.map_map, Nat.add_zero]
  congr 1
  apply List.map_congr_left
  intro a _
  simp only [Function.comp_apply]
  have hza : i + 1 + a = i + (a + 1) := by omega
  rw [hza]

theorem artifactEntries_underDir (env : Env) (f : Bytes → Session → Bytes) (session : Session)
    (keep : Bool) (out : String) :
    ∀ (frames : List FrameT) (i : Nat),
      ∀ e ∈ artifactEntries env f session keep out i frames, underDir out e.1 = true := by
  intro frames
  induction frames with
  | nil => intro i e he; simp [artifactEntries] at he
  | cons fr rest ih =>
    intro i e he
    simp only [artifactEntries, List.append_assoc, List.mem_append] at he
    rcases he with he | he
    · cases keep with
      | true =>
        simp at he
        rw [he]
        exact underDir_tempFramePath out i
      | false => simp at he
    · rcases he with he | he
      · simp at he
        rw [he]
        exact underDir_outFramePath out i
      · exact ih (i+1) e he

theorem filter_underDir_split (out : String) (l arts : List (String × Bytes))
    (hl : ∀ e ∈ l, underDir out e.1 = false) (ha : ∀ e ∈ arts, underDir out e.1 = true) :
    (l ++ arts).filter (fun e => underDir out e.1) = arts := by
  rw [List.filter_append]
  rw [List.filter_eq_nil_iff.mpr (by intro e he; simp [hl e he])]
  rw [List.filter_eq_self.mpr ha]
  rfl

theorem artifactEntries_false_keys (env : Env) (f : Bytes → Session → Bytes) (session : Session)
    (out : String) :
    ∀ (frames : List FrameT) (i : Nat),
      (artifactEntries env f session false out i frames).map Prod.fst
        = (List.range frames.length).map (fun k => outFramePath out (i+k)) := by
  intro frames
  induction frames with
  | nil => intro i; simp [artifactEntries]
  | cons fr rest ih =>
    intro i
    simp only [artifactEntries, if_neg (by simp : ¬ (false = true)), List.nil_append,
      List.cons_append, List.map_cons, List.length_cons]
    rw [ih (i+1)]
    exact paths_shift (fun k => outFramePath out k) i rest.length

theorem artifactEntries_true_length (env : Env) (f : Bytes → Session → Bytes) (session : Session)
    (out : String) :
    ∀ (frames : List FrameT) (i : Nat),
      (artifactEntries env f session true out i frames).length = 2 * frames.length := by
  intro frames
  induction frames with
  | nil => intro i; simp [artifactEntries]
  | cons fr rest ih =>
    intro i
    simp only [artifactEntries, List.length_append, List.length_cons, ih (i+1)]
    simp
    omega

theorem artifactEntries_true_lookup_temp (env : Env) (f : Bytes → Session → Bytes)
    (session : Session) (out : String) :
    ∀ (frames : List FrameT) (i k : Nat), k < frames.length →
      List.lookup (tempFramePath out (i+k)) (artifactEntries env f session true out i frames)
        = some (env.pngEncode (env.convertRGBA (frames.getD k []))) := by
  intro frames
  induction frames with
  | nil => intro i k hk; simp at hk
  | cons fr rest ih =>
    intro i k hk
    cases k with
    | zero =>
      simp only [artifactEntries, if_pos rfl, Nat.add_zero]
      simp [List.lookup_cons]
    | succ k =>
      have hklen : k < rest.length := by simpa using hk
      have hik : i + (k + 1) = i + 1 + k := by omega
      have hne1 : ((tempFramePath out (i+1+k) : String) == tempFramePath out i) = false := by
        have h : ¬ (tempFramePath out (i+1+k) = tempFramePath out i) := by
          intro h
          have := tempFramePath_inj h
          omega
        simp [h]
      have hne2 : ((tempFramePath out (i+1+k) : String) == outFramePath out i) = false := by
        have h := tempFramePath_ne_outFramePath out (i+1+k) i
        simp [h]
      rw [hik]
      simp only [artifactEntries, List.getD_cons_succ]
      rw [if_pos trivial]
      simp only [List.cons_append, List.nil_append, List.singleton_append, List.append_assoc,
        List.lookup_cons, hne1, hne2]
      exact ih (i+1) k hklen

theorem process_gif_noFaults (env : Env) (f : Bytes → Session → Bytes)
    (input out : String) (keep : Bool) (model : Option String) (fs0 : FS) (gif : GIFImage)
    (h1 : ∀ p b, env.saveFails p b = none) (h2 : ∀ p b, env.writeFails p b = none)
    (h3 : ∀ p, env.unlinkOtherFail p = false)
    (h4 : ∀ b s, env.removeBg b s = Except.ok (f b s))
    (hex : fs0.pathExists input = true) (hsuf : strToLower (suffix input) = ".gif")
    (hdec : (fs0.lookupFile input).bind env.decode = some gif)
    (hfresh : ∀ e ∈ fs0.files, underDir out e.1 = false) :
    process_gif env input out keep model fs0
      = ⟨⟨⟨fs0.files ++ artifactEntries env f ⟨0, sessionModel model⟩ keep out 1 gif.frames,
           (fs0.mkdirP out).dirs⟩,
          Event.evNewSession 0 (sessionModel model) :: (List.range gif.frames.length).map
            (fun k => Event.evRemove (1+k) 0)⟩, Except.ok out⟩ := by
  have hlf : (fs0.mkdirP out).lookupFile input = fs0.lookupFile input :=
    FS.mkdirP_lookupFile _ _ _
  have hfr : ∀ j, (1:Nat) ≤ j →
      FS.fileExists (fs0.mkdirP out) (tempFramePath out j) = false
      ∧ FS.fileExists (fs0.mkdirP out) (outFramePath out j) = false := by
    intro j hj
    constructor
    · rw [FS.mkdirP_fileExists]
      exact fileExists_false_of_underDir fs0 out _ hfresh (underDir_tempFramePath out j)
    · rw [FS.mkdirP_fileExists]
      exact fileExists_false_of_underDir fs0 out _ hfresh (underDir_outFramePath out j)
  have hloop := processFrames_noFaults env f keep ⟨0, sessionModel model⟩ out h1 h2 h3 h4 gif.frames 1
    ⟨fs0.mkdirP out, [Event.evNewSession 0 (sessionModel model)]⟩ (fun j hj => hfr j hj)
  simp only [process_gif]
  rw [if_neg (show ¬ (fs0.pathExists input = false) by simp [hex])]
  rw [if_neg (show ¬ ¬ (strToLower (suffix input) = ".gif") by simp [hsuf])]
  rw [hlf, hdec]
  simp only [openAndLoop]
  rw [hloop]
  simp [FS.mkdirP_files]

/-! ### Claim theorems -/

/-- C1: for every valid N-frame animated input processed with default options
(`keep_temp_files = false`), the output directory contains exactly N files,
named `frame_NNN_bg_removed.png` for `i = 1..N` with the counter starting
at 1, and zero temp files; past index 999 the numeric field widens rather
than truncates (`pad3 1000 = "1000"`). -/
theorem C1_default_output_layout (env : Env) (f : Bytes → Session → Bytes)
    (input out : String) (model : Option String) (fs0 : FS) (gif : GIFImage)
    (h1 : ∀ p b, env.saveFails p b = none) (h2 : ∀ p b, env.writeFails p b = none)
    (h3 : ∀ p, env.unlinkOtherFail p = false)
    (h4 : ∀ b s, env.removeBg b s = Except.ok (f b s))
    (hex : fs0.pathExists input = true) (hsuf : strToLower (suffix input) = ".gif")
    (hdec : (fs0.lookupFile input).bind env.decode = some gif)
    (hfresh : ∀ e ∈ fs0.files, underDir out e.1 = false) :
    ((process_gif env input out false model fs0).result = Except.ok out)
    ∧ (((process_gif env input out false model fs0).st.fs.files.filter
          (fun e => underDir out e.1)).map Prod.fst
        = (List.range gif.frames.length).map (fun k => outFramePath out (1+k)))
    ∧ (((process_gif env input out false model fs0).st.fs.files.filter
          (fun e => underDir out e.1)).length = gif.frames.length)
    ∧ (∀ i, (process_gif env input out false model fs0).st.fs.fileExists
          (tempFramePath out i) = false)
    ∧ pad3 1 = "001" ∧ pad3 1000 = "1000" := by
  have hrun := process_gif_noFaults env f input out false model fs0 gif
    h1 h2 h3 h4 hex hsuf hdec hfresh
  rw [hrun]
  have hud := artifactEntries_underDir env f ⟨0, sessionModel model⟩ false out gif.frames 1
  have hfilter : (fs0.files ++ artifactEntries env f ⟨0, sessionModel model⟩ false out 1 gif.frames).filter
      (fun e => underDir out e.1) = artifactEntries env f ⟨0, sessionModel model⟩ false out 1 gif.frames :=
    filter_underDir_split out _ _ hfresh hud
  have hkeys := artifactEntries_false_keys env f ⟨0, sessionModel model⟩ out gif.frames 1
  refine ⟨rfl, ?_, ?_, ?_, by decide, by decide⟩
  · show ((fs0.files ++ artifactEntries env f ⟨0, sessionModel model⟩ false out 1 gif.frames).filter
        (fun e => underDir out e.1)).map Prod.fst = _
    rw [hfilter, hkeys]
  · show ((fs0.files ++ artifactEntries env f ⟨0, sessionModel model⟩ false out 1 gif.frames).filter
        (fun e => underDir out e.1)).length = _
    rw [hfilter]
    have hlen := congrArg List.length hkeys
    simpa using hlen
  · intro i
    show FS.fileExists ⟨fs0.files ++ artifactEntries env f ⟨0, sessionModel model⟩ false out 1 gif.frames,
        (fs0.mkdirP out).dirs⟩ (tempFramePath out i) = false
    apply fileExists_append_tail
    · exact lookup_of_fileExists_false _ _
        (fileExists_false_of_underDir fs0 out _ hfresh (underDir_tempFramePath out i))
    · rw [lookup_eq_none_iff]
      intro e he heq
      have hmem : e.1 ∈ (artifactEntries env f ⟨0, sessionModel model⟩ false out 1 gif.frames).map Prod.fst :=
        List.mem_map_of_mem Prod.fst he
      rw [hkeys] at hmem
      rw [List.mem_map] at hmem
      obtain ⟨k, _, hk⟩ := hmem
      rw [heq] at hk
      exact tempFramePath_ne_outFramePath out i (1+k) hk.symm

/-- C5: for every valid N-frame animated input processed with
`keep_temp_files = true`, the output directory contains exactly 2N files, and
each temp file `frame_NNN.png` holds the PNG encoding of frame i after
RGBA conversion, before background removal. -/
theorem C5_keep_temp_layout (env : Env) (f : Bytes → Session → Bytes)
    (input out : String) (model : Option String) (fs0 : FS) (gif : GIFImage)
    (h1 : ∀ p b, env.saveFails p b = none) (h2 : ∀ p b, env.writeFails p b = none)
    (h3 : ∀ p, env.unlinkOtherFail p = false)
    (h4 : ∀ b s, env.removeBg b s = Except.ok (f b s))
    (hex : fs0.pathExists input = true) (hsuf : strToLower (suffix input) = ".gif")
    (hdec : (fs0.lookupFile input).bind env.decode = some gif)
    (hfresh : ∀ e ∈ fs0.files, underDir out e.1 = false) :
    ((process_gif env input out true model fs0).result = Except.ok out)
    ∧ (((process_gif env input out true model fs0).st.fs.files.filter
          (fun e => underDir out e.1)).length = 2 * gif.frames.length)
    ∧ (∀ k, k < gif.frames.length →
        (process_gif env input out true model fs0).st.fs.lookupFile (tempFramePath out (k+1))
          = some (env.pngEncode (env.convertRGBA (gif.frames.getD k [])))) := by
  have hrun := process_gif_noFaults env f input out true model fs0 gif
    h1 h2 h3 h4 hex hsuf hdec hfresh
  rw [hrun]
  have hud := artifactEntries_underDir env f ⟨0, sessionModel model⟩ true out gif.frames 1
  have hfilter : (fs0.files ++ artifactEntries env f ⟨0, sessionModel model⟩ true out 1 gif.frames).filter
      (fun e => underDir out e.1) = artifactEntries env f ⟨0, sessionModel model⟩ true out 1 gif.frames :=
    filter_underDir_split out _ _ hfresh hud
  refine ⟨rfl, ?_, ?_⟩
  · show ((fs0.files ++ artifactEntries env f ⟨0, sessionModel model⟩ true out 1 gif.frames).filter
        (fun e => underDir out e.1)).length = _
    rw [hfilter]
    exact artifactEntries_true_length env f ⟨0, sessionModel model⟩ out gif.frames 1
  · intro k hk
    show FS.lookupFile ⟨fs0.files ++ artifactEntries env f ⟨0, sessionModel model⟩ true out 1 gif.frames,
        (fs0.mkdirP out).dirs⟩ (tempFramePath out (k+1)) = _
    have hz : List.lookup (tempFramePath out (k+1)) fs0.files = none :=
      lookup_of_fileExists_false _ _
        (fileExists_false_of_underDir fs0 out _ hfresh (underDir_tempFramePath out (k+1)))
    have hart := artifactEntries_true_lookup_temp env f ⟨0, sessionModel model⟩ out gif.frames 1 k hk
    have hone : (1 : Nat) + k = k + 1 := Nat.add_comm 1 k
    rw [hone] at hart
    simp only [FS.lookupFile, lookup_append_sb, hz, hart]

/-- C2: if an exception is raised while saving the temp frame, running
inference, or writing the output frame (the frame body ends with in-flight
exception e), the temp-file deletion is still attempted unless
`keep_temp_files` is true; a missing-file condition during that deletion is
swallowed silently and e still propagates; any other deletion failure
propagates instead (replacing e, per Python `finally` semantics); with
`keep_temp_files` true no deletion happens and e propagates directly. -/
theorem C2_cleanup_on_error (env : Env) (keep : Bool) (session : Session) (out : String)
    (i : Nat) (fr : FrameT) (st stB : St) (e : Err)
    (hb : frameBody env session out i fr st = (stB, some e)) :
    (keep = true → processFrame env keep session out i fr st = (stB, some e))
    ∧ (keep = false → stB.fs.fileExists (tempFramePath out i) = false →
        processFrame env keep session out i fr st = (stB, some e))
    ∧ (keep = false → stB.fs.fileExists (tempFramePath out i) = true →
        env.unlinkOtherFail (tempFramePath out i) = false →
        processFrame env keep session out i fr st
          = ({ stB with fs := stB.fs.eraseFile (tempFramePath out i) }, some e))
    ∧ (keep = false → stB.fs.fileExists (tempFramePath out i) = true →
        env.unlinkOtherFail (tempFramePath out i) = true →
        processFrame env keep session out i fr st
          = (stB, some (Err.osError "unlink failed"))) := by
  refine ⟨?_, ?_, ?_, ?_⟩
  · intro hk
    subst hk
    simp [processFrame, hb, frameCleanup]
  · intro hk hex
    subst hk
    simp [processFrame, hb, frameCleanup, hex]
  · intro hk hex hu
    subst hk
    simp [processFrame, hb, frameCleanup, hex, hu]
  · intro hk hex hu
    subst hk
    simp [processFrame, hb, frameCleanup, hex, hu]

/-- C3: a `process_gif` call whose input path does not reference an existing
filesystem entry raises the not-found error before any processing: the
filesystem is unchanged (in particular no output directory is created) and
no session, removal or logging event occurs. -/
theorem C3_missing_input (env : Env) (input out : String) (keep : Bool)
    (model : Option String) (fs0 : FS) (h : fs0.pathExists input = false) :
    process_gif env input out keep model fs0
      = ⟨⟨fs0, []⟩, Except.error (Err.fileNotFoundError ("Input file not found: " ++ input))⟩ := by
  simp [process_gif, h]

/-- C4: a `process_gif` call whose input path exists but whose extension is
not case-insensitively `.gif` raises the invalid-format error with no side
effect, for every environment and every file content — in particular even
when the content would decode as a valid GIF container, since validation
never consults the decoder of the environment or the file bytes. -/
theorem C4_wrong_extension (env : Env) (input out : String) (keep : Bool)
    (model : Option String) (fs0 : FS) (hex : fs0.pathExists input = true)
    (hsuf : ¬ (strToLower (suffix input) = ".gif")) :
    process_gif env input out keep model fs0
      = ⟨⟨fs0, []⟩,
          Except.error (Err.valueError ("Input file must be a GIF, got: " ++ suffix input))⟩ := by
  simp only [process_gif]
  rw [if_neg (show ¬ (fs0.pathExists input = false) by simp [hex])]
  rw [if_pos hsuf]

theorem openAndLoop_ok (env : Env) (out : String) (keep : Bool) (session : Session)
    (gifOpt : Option GIFImage) (st1 : St) (p : String)
    (h : (openAndLoop env out keep session gifOpt st1).result = Except.ok p) : p = out := by
  simp only [openAndLoop] at h
  split at h
  · simp at h
  · split at h
    · simp at h
    · simp only [] at h
      exact (Except.ok.inj h).symm

/-- C8: every successful run of `process_gif` returns exactly the output
directory path that was passed in as `output_folder`. -/
theorem C8_returns_output_folder (env : Env) (input out : String) (keep : Bool)
    (model : Option String) (fs0 : FS) (p : String)
    (h : (process_gif env input out keep model fs0).result = Except.ok p) : p = out := by
  simp only [process_gif] at h
  split at h
  · simp at h
  · split at h
    · simp at h
    · exact openAndLoop_ok _ _ _ _ _ _ _ h

theorem processFrames_decode_irrel (env : Env) (alt : Bytes → Option GIFImage)
    (keep : Bool) (session : Session) (out : String) :
    ∀ (frames : List FrameT) (i : Nat) (st : St),
      processFrames { env with decode := alt } keep session out frames i st
        = processFrames env keep session out frames i st := by
  intro frames
  induction frames with
  | nil => intro i st; rfl
  | cons fr rest ih =>
    intro i st
    have hpf : processFrame { env with decode := alt } keep session out i fr st
        = processFrame env keep session out i fr st := rfl
    simp only [processFrames, hpf]
    cases processFrame env keep session out i fr st with
    | mk st1 oe =>
      cases oe with
      | some e => rfl
      | none => exact ih (i+1) st1

theorem openAndLoop_frames_congr (env : Env) (alt : Bytes → Option GIFImage)
    (out : String) (keep : Bool) (session : Session) (g1 g2 : Option GIFImage) (st1 : St)
    (h : Option.map GIFImage.frames g1 = Option.map GIFImage.frames g2) :
    openAndLoop env out keep session g1 st1
      = openAndLoop { env with decode := alt } out keep session g2 st1 := by
  cases g1 with
  | none =>
    cases g2 with
    | none => rfl
    | some b => simp at h
  | some a =>
    cases g2 with
    | none => simp at h
    | some b =>
      have hfr : a.frames = b.frames := by simpa using h
      simp only [openAndLoop]
      rw [processFrames_decode_irrel env alt keep session out]
      rw [hfr]

/-- C9: the per-container display-duration metadata does not influence any
output: runs whose decoded inputs agree on the frame list but differ
arbitrarily in the duration metadata (including its absence, which defaults
to 100 ms) produce the same filesystem, the same events, and the same return
value. -/
theorem C9_duration_unused (env : Env) (alt : Bytes → Option GIFImage)
    (input out : String) (keep : Bool) (model : Option String) (fs0 : FS)
    (h : ∀ b, Option.map GIFImage.frames (env.decode b) = Option.map GIFImage.frames (alt b)) :
    process_gif env input out keep model fs0
      = process_gif { env with decode := alt } input out keep model fs0 := by
  simp only [process_gif]
  by_cases h1 : fs0.pathExists input = false
  · rw [if_pos h1, if_pos h1]
  · rw [if_neg h1, if_neg h1]
    by_cases h2 : ¬ (strToLower (suffix input) = ".gif")
    · rw [if_pos h2, if_pos h2]
    · rw [if_neg h2, if_neg h2]
      cases hc : (fs0.mkdirP out).lookupFile input with
      | none => rfl
      | some c =>
        exact openAndLoop_frames_congr env alt out keep ⟨0, sessionModel model⟩
          (env.decode c) (alt c) _ (h c)


theorem openAndLoop_preserves (env : Env) (out : String) (keep : Bool) (session : Session)
    (gifOpt : Option GIFImage) (st1 : St) :
    (∀ p, (∀ i, ¬ (p = tempFramePath out i) ∧ ¬ (p = outFramePath out i)) →
        (openAndLoop env out keep session gifOpt st1).st.fs.lookupFile p = st1.fs.lookupFile p)
    ∧ (openAndLoop env out keep session gifOpt st1).st.fs.dirs = st1.fs.dirs := by
  cases gifOpt with
  | none => exact ⟨fun p _ => rfl, rfl⟩
  | some gif =>
    obtain ⟨hd, hp⟩ := processFrames_preserves env keep session out gif.frames 1 st1
    simp only [openAndLoop]
    cases hpr : processFrames env keep session out gif.frames 1 st1 with
    | mk st2 oe =>
      rw [hpr] at hd hp
      cases oe with
      | some e => exact ⟨fun p hne => hp p hne, hd⟩
      | none => exact ⟨fun p hne => hp p hne, hd⟩

theorem openAndLoop_events (env : Env) (out : String) (keep : Bool) (session : Session)
    (gifOpt : Option GIFImage) (st1 : St) :
    ∃ l, (openAndLoop env out keep session gifOpt st1).st.events = st1.events ++ l
      ∧ (∀ e ∈ l, e = Event.evLogError ∨ ∃ k, e = Event.evRemove k session.sid)
      ∧ (∀ m, (l.filter (isRemoveOf m)).length ≤ 1) := by
  cases gifOpt with
  | none =>
    refine ⟨[Event.evLogError], rfl, by simp, ?_⟩
    intro m
    simp [isRemoveOf, List.filter]
  | some gif =>
    obtain ⟨l0, hl0e, hl0m, hl0c⟩ := processFrames_events env keep session out gif.frames 1 st1
    simp only [openAndLoop]
    cases hpr : processFrames env keep session out gif.frames 1 st1 with
    | mk st2 oe =>
      rw [hpr] at hl0e
      cases oe with
      | some e =>
        refine ⟨l0 ++ [Event.evLogError], ?_, ?_, ?_⟩
        · show st2.events ++ [Event.evLogError] = st1.events ++ (l0 ++ [Event.evLogError])
          rw [hl0e, List.append_assoc]
        · intro ev hev
          rcases List.mem_append.mp hev with hev | hev
          · obtain ⟨k, _, hke⟩ := hl0m ev hev
            exact Or.inr ⟨k, hke⟩
          · simp at hev
            exact Or.inl hev
        · intro m
          rw [List.filter_append]
          have : ([Event.evLogError].filter (isRemoveOf m)) = [] := by
            simp [isRemoveOf, List.filter]
          rw [this, List.append_nil]
          exact hl0c m
      | none =>
        refine ⟨l0, hl0e, ?_, hl0c⟩
        intro ev hev
        obtain ⟨k, _, hke⟩ := hl0m ev hev
        exact Or.inr ⟨k, hke⟩

theorem processFrames_footprint (env : Env) (keep : Bool) (session : Session)
    (out : String) :
    ∀ (frames : List FrameT) (i : Nat) (st : St),
      framesIterated env keep session out frames i st ≤ frames.length
      ∧ (∀ p, (∀ j, i ≤ j → j < i + framesIterated env keep session out frames i st →
            ¬ (p = tempFramePath out j) ∧ ¬ (p = outFramePath out j)) →
          (processFrames env keep session out frames i st).1.fs.lookupFile p
            = st.fs.lookupFile p) := by
  intro frames
  induction frames with
  | nil =>
    intro i st
    exact ⟨Nat.le_refl 0, fun p _ => rfl⟩
  | cons fr rest ih =>
    intro i st
    obtain ⟨hf1, hf2, hf3⟩ := processFrame_shape env keep session out i fr st
    cases hpf : processFrame env keep session out i fr st with
    | mk st1 oe =>
      rw [hpf] at hf3
      cases oe with
      | some e =>
        have hKeq : framesIterated env keep session out (fr :: rest) i st = 1 := by
          simp only [framesIterated, hpf]
        constructor
        · rw [hKeq]; simp
        · intro p hp
          rw [hKeq] at hp
          have h1 := hp i (Nat.le_refl i) (by omega)
          show (processFrames env keep session out (fr :: rest) i st).1.fs.lookupFile p = _
          simp only [processFrames, hpf]
          exact hf3 p h1.1 h1.2
      | none =>
        obtain ⟨ihK, ihP⟩ := ih (i+1) st1
        have hKeq : framesIterated env keep session out (fr :: rest) i st
            = 1 + framesIterated env keep session out rest (i+1) st1 := by
          simp only [framesIterated, hpf]
        constructor
        · rw [hKeq]
          simp only [List.length_cons]
          omega
        · intro p hp
          rw [hKeq] at hp
          have hpi := hp i (Nat.le_refl i) (by omega)
          have hprest : ∀ j, i + 1 ≤ j →
              j < (i + 1) + framesIterated env keep session out rest (i+1) st1 →
              ¬ (p = tempFramePath out j) ∧ ¬ (p = outFramePath out j) := by
            intro j hj1 hj2
            exact hp j (by omega) (by omega)
          show (processFrames env keep session out (fr :: rest) i st).1.fs.lookupFile p = _
          simp only [processFrames, hpf]
          rw [ihP p hprest]
          exact hf3 p hpi.1 hpi.2

theorem openAndLoop_footprint (env : Env) (out : String) (keep : Bool) (session : Session)
    (gifOpt : Option GIFImage) (st1 : St) :
    ∀ p, (∀ j, 1 ≤ j → j ≤ iteratedCount env out keep session gifOpt st1 →
        ¬ (p = tempFramePath out j) ∧ ¬ (p = outFramePath out j)) →
      (openAndLoop env out keep session gifOpt st1).st.fs.lookupFile p
        = st1.fs.lookupFile p := by
  intro p hp
  cases gifOpt with
  | none => rfl
  | some gif =>
    obtain ⟨hK, hP⟩ := processFrames_footprint env keep session out gif.frames 1 st1
    have hic : iteratedCount env out keep session (some gif) st1
        = framesIterated env keep session out gif.frames 1 st1 := rfl
    rw [hic] at hp
    have hp2 : ∀ j, 1 ≤ j → j < 1 + framesIterated env keep session out gif.frames 1 st1 →
        ¬ (p = tempFramePath out j) ∧ ¬ (p = outFramePath out j) := by
      intro j hj1 hj2
      exact hp j hj1 (by omega)
    simp only [openAndLoop]
    cases hpr : processFrames env keep session out gif.frames 1 st1 with
    | mk st2 oe =>
      rw [hpr] at hP
      cases oe with
      | some e => exact hP p hp2
      | none => exact hP p hp2

/-- C10: `process_gif` never deletes or overwrites any filesystem entry
other than the per-frame artifact paths `frame_NNN.png` and
`frame_NNN_bg_removed.png` of the frame indices actually iterated (counted
by `process_gif_iterated`; the counter starts at 1): the content at every
other path — including artifact-shaped names of never-iterated indices such
as index 0 or indices past the abort point — is preserved, a pre-existing
output directory is reused rather than cleared (no directory entry is
removed), and the input file itself is never modified. -/
theorem C10_no_stray_writes (env : Env) (input out : String) (keep : Bool)
    (model : Option String) (fs0 : FS) :
    (∀ p, (∀ i, 1 ≤ i → i ≤ process_gif_iterated env input out keep model fs0 →
          ¬ (p = tempFramePath out i) ∧ ¬ (p = outFramePath out i)) →
        (process_gif env input out keep model fs0).st.fs.lookupFile p = fs0.lookupFile p)
    ∧ (∀ d ∈ fs0.dirs, d ∈ (process_gif env input out keep model fs0).st.fs.dirs)
    ∧ ((process_gif env input out keep model fs0).st.fs.lookupFile input
        = fs0.lookupFile input) := by
  simp only [process_gif, process_gif_iterated]
  by_cases h1 : fs0.pathExists input = false
  · simp only [if_pos h1]
    refine ⟨fun p _ => ?_, fun d hd => ?_, ?_⟩ <;> trivial
  · simp only [if_neg h1]
    by_cases h2 : ¬ (strToLower (suffix input) = ".gif")
    · simp only [if_pos h2]
      refine ⟨fun p _ => ?_, fun d hd => ?_, ?_⟩ <;> trivial
    · simp only [if_neg h2]
      have hsuf : strToLower (suffix input) = ".gif" := not_not.mp h2
      obtain ⟨hp, hd⟩ := openAndLoop_preserves env out keep ⟨0, sessionModel model⟩
        (((fs0.mkdirP out).lookupFile input).bind env.decode)
        ⟨fs0.mkdirP out, [Event.evNewSession 0 (sessionModel model)]⟩
      have hfp := openAndLoop_footprint env out keep ⟨0, sessionModel model⟩
        (((fs0.mkdirP out).lookupFile input).bind env.decode)
        ⟨fs0.mkdirP out, [Event.evNewSession 0 (sessionModel model)]⟩
      refine ⟨?_, ?_, ?_⟩
      · intro p hne
        rw [hfp p (fun j hj1 hj2 => hne j hj1 hj2)]
        exact FS.mkdirP_lookupFile fs0 out p
      · intro d hdm
        rw [hd]
        exact FS.mkdirP_dirs_mem fs0 out d hdm
      · rw [hp input (fun i => ⟨gif_ne_tempFramePath input out i hsuf,
          gif_ne_outFramePath input out i hsuf⟩)]
        exact FS.mkdirP_lookupFile fs0 out input

/-- C6: whenever validation passes, exactly one inference session is created
per invocation of `process_gif` — scoped to the supplied model name when one
is supplied (per the truthiness check of the source, an absent or empty name
means the default model: `sessionModel`) — and every background-removal call
of the run uses that same session, never a recreated or replaced one. -/
theorem C6_single_session (env : Env) (input out : String) (keep : Bool)
    (model : Option String) (fs0 : FS)
    (hex : fs0.pathExists input = true) (hsuf : strToLower (suffix input) = ".gif") :
    ((process_gif env input out keep model fs0).st.events.filter isNewSessionEv
        = [Event.evNewSession 0 (sessionModel model)])
    ∧ (∀ k s, Event.evRemove k s ∈ (process_gif env input out keep model fs0).st.events →
        s = 0) := by
  simp only [process_gif]
  rw [if_neg (show ¬ (fs0.pathExists input = false) by simp [hex])]
  rw [if_neg (show ¬ ¬ (strToLower (suffix input) = ".gif") by simp [hsuf])]
  obtain ⟨l, hle, hlm, hlc⟩ := openAndLoop_events env out keep ⟨0, sessionModel model⟩
    (((fs0.mkdirP out).lookupFile input).bind env.decode)
    ⟨fs0.mkdirP out, [Event.evNewSession 0 (sessionModel model)]⟩
  rw [hle]
  constructor
  · rw [List.filter_append]
    have h1 : ([Event.evNewSession 0 (sessionModel model)] : List Event).filter isNewSessionEv
        = [Event.evNewSession 0 (sessionModel model)] := rfl
    have h2 : l.filter isNewSessionEv = [] := by
      rw [List.filter_eq_nil_iff]
      intro ev hev
      rcases hlm ev hev with hev2 | ⟨k, hev2⟩ <;> subst hev2 <;> simp [isNewSessionEv]
    rw [h1, h2, List.append_nil]
  · intro k s hmem
    rcases List.mem_append.mp hmem with hmem | hmem
    · simp at hmem
    · rcases hlm _ hmem with hev2 | ⟨k2, hev2⟩
      · exact absurd hev2 (by simp)
      · have := Event.evRemove.inj hev2
        exact this.2

theorem process_gif_events (env : Env) (input out : String) (keep : Bool)
    (model : Option String) (fs0 : FS) :
    ((process_gif env input out keep model fs0).st.events = [])
    ∨ (∃ l, (process_gif env input out keep model fs0).st.events
          = Event.evNewSession 0 (sessionModel model) :: l
        ∧ (∀ m, (l.filter (isRemoveOf m)).length ≤ 1)) := by
  simp only [process_gif]
  by_cases h1 : fs0.pathExists input = false
  · rw [if_pos h1]
    exact Or.inl rfl
  · rw [if_neg h1]
    by_cases h2 : ¬ (strToLower (suffix input) = ".gif")
    · rw [if_pos h2]
      exact Or.inl rfl
    · rw [if_neg h2]
      obtain ⟨l, hle, hlm, hlc⟩ := openAndLoop_events env out keep ⟨0, sessionModel model⟩
        (((fs0.mkdirP out).lookupFile input).bind env.decode)
        ⟨fs0.mkdirP out, [Event.evNewSession 0 (sessionModel model)]⟩
      refine Or.inr ⟨l, ?_, hlc⟩
      rw [hle]
      rfl

/-- C7: every exception during processing propagates to the caller unchanged
and without retries: when `process_gif` fails, the command line logs an error
and exits with code 1; when it succeeds, the state is untouched by the
handler and the exit code is 0. No frame index is ever submitted to the
background-removal call more than once (no retry, no partial-result
recovery). -/
theorem C7_error_exit_codes (env : Env) (args : CLIArgs) (fs0 : FS) :
    (∀ p, (process_gif env args.input_gif args.output_dir args.keep_temp args.model fs0).result
        = Except.ok p →
      mainRun env args fs0
        = ((process_gif env args.input_gif args.output_dir args.keep_temp args.model fs0).st, 0))
    ∧ (∀ e, (process_gif env args.input_gif args.output_dir args.keep_temp args.model fs0).result
        = Except.error e →
      mainRun env args fs0
        = (⟨(process_gif env args.input_gif args.output_dir args.keep_temp args.model fs0).st.fs,
            (process_gif env args.input_gif args.output_dir args.keep_temp args.model fs0).st.events
              ++ [Event.evLogError]⟩, 1)
      ∧ Event.evLogError ∈ (mainRun env args fs0).1.events)
    ∧ (∀ m, (((process_gif env args.input_gif args.output_dir args.keep_temp args.model
        fs0).st.events).filter (isRemoveOf m)).length ≤ 1) := by
  refine ⟨?_, ?_, ?_⟩
  · intro p h
    simp [mainRun, h]
  · intro e h
    constructor
    · simp [mainRun, h]
    · simp [mainRun, h]
  · intro m
    rcases process_gif_events env args.input_gif args.output_dir args.keep_temp args.model fs0
      with h | ⟨l, hl, hc⟩
    · rw [h]
      simp
    · rw [hl]
      have hnew : isRemoveOf m (Event.evNewSession 0 (sessionModel args.model)) = false := rfl
      simp only [List.filter_cons, hnew]
      exact hc m












theorem pad3_length_ge (n : Nat) : 3 ≤ (pad3 n).data.length := by
  show 3 ≤ (List.replicate (3 - (decRepr n).length) '0' ++ (decRepr n).data).length
  rw [List.length_append, List.length_replicate]
  have h : (decRepr n).length = (decRepr n).data.length := rfl
  omega

theorem other_ne_temp (i : Nat) : ¬ ("other.txt" = tempFramePath "out" i) := by
  intro h
  have hd := congrArg String.data h
  rw [tempFramePath_data] at hd
  have hlen := congrArg List.length hd
  simp only [List.length_append, List.length_cons, List.length_nil] at hlen
  have h5 := pad3_length_ge i
  omega

theorem other_ne_out (i : Nat) : ¬ ("other.txt" = outFramePath "out" i) := by
  intro h
  have hd := congrArg String.data h
  rw [outFramePath_data] at hd
  have hlen := congrArg List.length hd
  simp only [List.length_append, List.length_cons, List.length_nil] at hlen
  have h5 := pad3_length_ge i
  omega

/-! ### Witnesses -/

/-- Witness for C1 on a concrete 3-frame input. -/
theorem C1_witness :
    fsOk.pathExists "in.gif" = true
    ∧ strToLower (suffix "in.gif") = ".gif"
    ∧ (fsOk.lookupFile "in.gif").bind envOk.decode = some gifOk
    ∧ (∀ e ∈ fsOk.files, underDir "out" e.1 = false)
    ∧ (process_gif envOk "in.gif" "out" false none fsOk).result = Except.ok "out"
    ∧ ((process_gif envOk "in.gif" "out" false none fsOk).st.fs.files.filter
        (fun e => underDir "out" e.1)).map Prod.fst
      = (List.range gifOk.frames.length).map (fun k => outFramePath "out" (1+k)) := by
  have happ := C1_default_output_layout envOk (fun b _ => 9 :: b) "in.gif" "out" none fsOk gifOk
    (fun _ _ => rfl) (fun _ _ => rfl) (fun _ => rfl) (fun _ _ => rfl)
    (by decide) (by decide) rfl (by decide)
  exact ⟨by decide, by decide, rfl, by decide, happ.1, happ.2.1⟩

/-- Witness for C2: a failing temp save leaves no temp file; the deletion
attempt swallows the missing-file condition and the original error
propagates. -/
theorem C2_witness :
    frameBody envFail sess0 "out" 1 [1] st0 = (st0, some (Err.osError "disk full"))
    ∧ st0.fs.fileExists (tempFramePath "out" 1) = false
    ∧ processFrame envFail false sess0 "out" 1 [1] st0
        = (st0, some (Err.osError "disk full")) := by
  have happ := (C2_cleanup_on_error envFail false sess0 "out" 1 [1] st0 st0
    (Err.osError "disk full") rfl).2.1 rfl (by decide)
  exact ⟨rfl, by decide, happ⟩

/-- Witness for C3 on a missing input path. -/
theorem C3_witness :
    fsOk.pathExists "missing.gif" = false
    ∧ process_gif envOk "missing.gif" "out" false none fsOk
        = ⟨⟨fsOk, []⟩,
            Except.error (Err.fileNotFoundError ("Input file not found: " ++ "missing.gif"))⟩ :=
  ⟨by decide, C3_missing_input envOk "missing.gif" "out" false none fsOk (by decide)⟩

/-- Witness for C4: an existing file whose bytes decode as a valid container
still fails on extension alone. -/
theorem C4_witness :
    fsPng.pathExists "in.png" = true
    ∧ ¬ (strToLower (suffix "in.png") = ".gif")
    ∧ envOk.decode [5] = some gifOk
    ∧ process_gif envOk "in.png" "out" false none fsPng
        = ⟨⟨fsPng, []⟩,
            Except.error (Err.valueError ("Input file must be a GIF, got: " ++ suffix "in.png"))⟩ :=
  ⟨by decide, by decide, rfl,
    C4_wrong_extension envOk "in.png" "out" false none fsPng (by decide) (by decide)⟩

/-- Witness for C5 on a concrete 3-frame input with kept temp files. -/
theorem C5_witness :
    fsOk.pathExists "in.gif" = true
    ∧ (process_gif envOk "in.gif" "out" true none fsOk).result = Except.ok "out"
    ∧ ((process_gif envOk "in.gif" "out" true none fsOk).st.fs.files.filter
        (fun e => underDir "out" e.1)).length = 2 * gifOk.frames.length
    ∧ (process_gif envOk "in.gif" "out" true none fsOk).st.fs.lookupFile
        (tempFramePath "out" 1) = some [7, 0, 1] := by
  have happ := C5_keep_temp_layout envOk (fun b _ => 9 :: b) "in.gif" "out" none fsOk gifOk
    (fun _ _ => rfl) (fun _ _ => rfl) (fun _ => rfl) (fun _ _ => rfl)
    (by decide) (by decide) rfl (by decide)
  refine ⟨by decide, happ.1, happ.2.1, ?_⟩
  have h0 := happ.2.2 0 (by decide)
  simpa using h0

/-- Witness for C6 on concrete runs: with no model name the session is the
default one, and with the falsy empty model name the session is likewise the
default one, matching the truthiness check of the source. -/
theorem C6_witness :
    fsOk.pathExists "in.gif" = true
    ∧ strToLower (suffix "in.gif") = ".gif"
    ∧ (process_gif envOk "in.gif" "out" false none fsOk).st.events.filter isNewSessionEv
        = [Event.evNewSession 0 none]
    ∧ (process_gif envOk "in.gif" "out" false (some "") fsOk).st.events.filter isNewSessionEv
        = [Event.evNewSession 0 none]
    ∧ (process_gif envOk "in.gif" "out" false (some "u2netp") fsOk).st.events.filter
        isNewSessionEv = [Event.evNewSession 0 (some "u2netp")] :=
  ⟨by decide, by decide,
    (C6_single_session envOk "in.gif" "out" false none fsOk (by decide) (by decide)).1,
    (C6_single_session envOk "in.gif" "out" false (some "") fsOk (by decide) (by decide)).1,
    (C6_single_session envOk "in.gif" "out" false (some "u2netp") fsOk
      (by decide) (by decide)).1⟩

/-- Witness for C7: a failing run exits 1 and logs; the remove count bound
holds concretely. -/
theorem C7_witness :
    (process_gif envOk "missing.gif" "out" false none fsOk).result
      = Except.error (Err.fileNotFoundError ("Input file not found: " ++ "missing.gif"))
    ∧ (mainRun envOk ⟨"missing.gif", "out", false, none, false⟩ fsOk).2 = 1
    ∧ Event.evLogError ∈ (mainRun envOk ⟨"missing.gif", "out", false, none, false⟩ fsOk).1.events := by
  have herr : (process_gif envOk "missing.gif" "out" false none fsOk).result
      = Except.error (Err.fileNotFoundError ("Input file not found: " ++ "missing.gif")) := rfl
  have happ := (C7_error_exit_codes envOk ⟨"missing.gif", "out", false, none, false⟩ fsOk).2.1 _ herr
  refine ⟨herr, ?_, happ.2⟩
  rw [happ.1]

/-- Witness for C8 on a successful zero-frame run. -/
theorem C8_witness :
    (process_gif envZero "in.gif" "outdir" false none fsOk).result = Except.ok "outdir"
    ∧ "outdir" = "outdir" := by
  have h : (process_gif envZero "in.gif" "outdir" false none fsOk).result
      = Except.ok "outdir" := rfl
  exact ⟨h, C8_returns_output_folder envZero "in.gif" "outdir" false none fsOk "outdir" h⟩

/-- Witness for C9: decoders agreeing on frames but not on duration give
identical runs. -/
theorem C9_witness :
    (∀ b, Option.map GIFImage.frames (envOk.decode b) = Option.map GIFImage.frames (altDec b))
    ∧ process_gif envOk "in.gif" "out" false none fsOk
        = process_gif { envOk with decode := altDec } "in.gif" "out" false none fsOk :=
  ⟨fun _ => rfl,
    C9_duration_unused envOk altDec "in.gif" "out" false none fsOk (fun _ => rfl)⟩

/-- Witness for C10: a pre-existing artifact-shaped file of the
never-iterated index 0 survives a successful 3-frame run, the input file is
preserved, and the pre-existing output directory is kept. -/
theorem C10_witness :
    process_gif_iterated envOk "in.gif" "out" false none fsD2 = 3
    ∧ (process_gif envOk "in.gif" "out" false none fsD2).st.fs.lookupFile
        (tempFramePath "out" 0) = fsD2.lookupFile (tempFramePath "out" 0)
    ∧ fsD2.lookupFile (tempFramePath "out" 0) = some [9]
    ∧ "out" ∈ fsD2.dirs
    ∧ "out" ∈ (process_gif envOk "in.gif" "out" false none fsD2).st.fs.dirs
    ∧ (process_gif envOk "in.gif" "out" false none fsD2).st.fs.lookupFile "in.gif"
        = fsD2.lookupFile "in.gif" := by
  have happ := C10_no_stray_writes envOk "in.gif" "out" false none fsD2
  have hK : process_gif_iterated envOk "in.gif" "out" false none fsD2 = 3 := by decide
  refine ⟨hK, ?_, by decide, by decide, ?_, happ.2.2⟩
  · apply happ.1
    intro i h1 h2
    rw [hK] at h2
    interval_cases i
    · exact ⟨by decide, by decide⟩
    · exact ⟨by decide, by decide⟩
    · exact ⟨by decide, by decide⟩
  · exact happ.2.1 "out" (by decide)
